import Mathlib

/-!
# Verification of the voice-assistant capture/dialog core

Shallow embedding of the repository `armmarov/voice_assistant_app`
(files `src/llm.py`, `src/asr.py`, `src/audio.py`, `src/daemon.py`,
`src/capture.py`) together with proofs of the specification's testable
properties.  Pure Python functions become Lean functions; the capture
loop becomes a step function on an explicit state record; fallible
HTTP calls become explicit response oracles; exceptions become
`Except`.
-/

namespace VoiceAssistant

/-! ## Python string primitives -/

/-- Characters for which Python's `str.isspace()` holds (the set used by
`str.strip()` with no argument): ASCII whitespace, the C1 controls
0x1c–0x1f, NEL, NBSP and the Unicode space separators. -/
def isPySpace (c : Char) : Bool :=
  c.val = 0x20 || (0x09 ≤ c.val && c.val ≤ 0x0d) ||
  (0x1c ≤ c.val && c.val ≤ 0x1f) || c.val = 0x85 || c.val = 0xa0 ||
  c.val = 0x1680 || (0x2000 ≤ c.val && c.val ≤ 0x200a) ||
  c.val = 0x2028 || c.val = 0x2029 || c.val = 0x202f ||
  c.val = 0x205f || c.val = 0x3000

/-- Python `str.strip()`: remove leading and trailing whitespace. -/
def pyStrip (s : String) : String :=
  ⟨((s.data.dropWhile isPySpace).reverse.dropWhile isPySpace).reverse⟩

/-! ## `src/llm.py` — `LLMClient.chat`

A chat message `{"role": r, "content": c}`. -/

structure Msg where
  role : String
  content : String
deriving DecidableEq

/-- Outcome of the `requests.post` call to `/chat/completions`:
`httpError` covers `requests.RequestException` (connection errors,
timeouts, `raise_for_status`); `malformed` covers the `KeyError` /
`IndexError` raised when `choices[0].message.content` is absent;
`ok content` is a well-formed body. -/
inductive ChatResp where
  | httpError
  | malformed
  | ok (content : String)

/-- `LLMClient.chat`, embedded over the history list.  The source first
appends `{"role": "user", "content": user_text}` under the lock, then
performs the request; on success it appends the stripped assistant
reply and returns it; both `except` branches log and return `None`
without touching the history. -/
def chat (history : List Msg) (userText : String) (resp : ChatResp) :
    Option String × List Msg :=
  let history1 := history ++ [⟨"user", userText⟩]
  match resp with
  | .httpError => (none, history1)
  | .malformed => (none, history1)
  | .ok content =>
      let reply := pyStrip content
      (some reply, history1 ++ [⟨"assistant", reply⟩])

/-! ## `src/asr.py` — `ASRClient.transcribe` -/

/-- Outcome of the `requests.post` call to the ASR endpoint:
`requestError` covers `requests.RequestException`; `ok tf` is a JSON
body whose `"text"` field is `tf` (`none` when the key is missing,
matching `resp.json().get("text", "")`). -/
inductive ASRResp where
  | requestError
  | ok (textField : Option String)

/-- `ASRClient.transcribe`: `resp.json().get("text", "").strip()`
followed by `return text or None`. -/
def transcribe : ASRResp → Option String
  | .requestError => none
  | .ok tf =>
      let text := pyStrip (tf.getD "")
      if text = "" then none else some text

/-! ## `src/audio.py` — gain and WAV container -/

/-- Little-endian byte pair of a 16-bit value. -/
def u16le (n : Nat) : List Nat := [n % 256, n / 256 % 256]

/-- Little-endian bytes of a 32-bit value. -/
def u32le (n : Nat) : List Nat :=
  [n % 256, n / 256 % 256, n / 65536 % 256, n / 16777216 % 256]

/-- `np.frombuffer(b, dtype=np.int16)`: little-endian byte pairs read
as signed 16-bit samples. -/
def bytesToInt16s : List Nat → List Int
  | b0 :: b1 :: rest =>
      (if b0 + 256 * b1 < 32768 then ((b0 + 256 * b1 : Nat) : Int)
       else ((b0 + 256 * b1 : Nat) : Int) - 65536) :: bytesToInt16s rest
  | _ => []

/-- `.astype(np.int16).tobytes()` for samples in int16 range:
two's-complement little-endian serialization. -/
def int16sToBytes (l : List Int) : List Nat :=
  l.flatMap fun s => u16le (s % 65536).toNat

/-- Truncation toward zero, as `astype(np.int16)` applies to an
in-range float value. -/
def truncRat (q : ℚ) : Int := if 0 ≤ q then ⌊q⌋ else ⌈q⌉

/-- One sample of `np.clip(samples * gain, -32768, 32767)` followed by
the int16 cast.  The float multiplication is modelled exactly over the
rationals. -/
def gainStep (gain : ℚ) (s : Int) : Int :=
  truncRat (min (max ((s : ℚ) * gain) (-32768)) 32767)

/-- `_apply_gain` over raw little-endian PCM bytes.  `gain == 1.0`
returns the buffer unchanged; otherwise `np.frombuffer` requires an
even byte count (`ValueError` else, modelled as `none`), and each
sample is multiplied by the gain, clipped and re-serialized. -/
def applyGain (pcmBytes : List Nat) (gain : ℚ) : Option (List Nat) :=
  if gain = 1 then some pcmBytes
  else if pcmBytes.length % 2 = 0 then
    some (int16sToBytes ((bytesToInt16s pcmBytes).map (gainStep gain)))
  else none

/-- `pcm_frames_to_wav`: the byte stream the `wave` module writes —
canonical 44-byte RIFF/WAVE header (PCM format tag 1, sample width 2)
followed by the concatenated frames, with the data length patched to
the exact number of raw bytes. -/
def pcmFramesToWav (frames : List (List Nat)) (sampleRate channels : Nat) :
    List Nat :=
  let raw := frames.flatten
  let dl := raw.length
  [82, 73, 70, 70] ++ u32le (36 + dl) ++ [87, 65, 86, 69] ++
  [102, 109, 116, 32] ++ u32le 16 ++ u16le 1 ++ u16le channels ++
  u32le sampleRate ++ u32le (channels * sampleRate * 2) ++
  u16le (channels * 2) ++ u16le 16 ++ [100, 97, 116, 97] ++
  u32le dl ++ raw

/-- Parse a canonical PCM WAV produced by the `wave` module: checks the
RIFF/WAVE/fmt/data structure and returns
`(channels, bitsPerSample, sampleRate, data)`. -/
def wavDecode : List Nat → Option (Nat × Nat × Nat × List Nat)
  | r0 :: r1 :: r2 :: r3 :: _ :: _ :: _ :: _ ::
    w0 :: w1 :: w2 :: w3 :: f0 :: f1 :: f2 :: f3 ::
    s0 :: s1 :: s2 :: s3 :: a0 :: a1 :: c0 :: c1 ::
    ra0 :: ra1 :: ra2 :: ra3 :: _ :: _ :: _ :: _ ::
    _ :: _ :: b0 :: b1 :: d0 :: d1 :: d2 :: d3 ::
    l0 :: l1 :: l2 :: l3 :: rest =>
      if r0 = 82 ∧ r1 = 73 ∧ r2 = 70 ∧ r3 = 70 ∧
         w0 = 87 ∧ w1 = 65 ∧ w2 = 86 ∧ w3 = 69 ∧
         f0 = 102 ∧ f1 = 109 ∧ f2 = 116 ∧ f3 = 32 ∧
         s0 = 16 ∧ s1 = 0 ∧ s2 = 0 ∧ s3 = 0 ∧ a0 = 1 ∧ a1 = 0 ∧
         d0 = 100 ∧ d1 = 97 ∧ d2 = 116 ∧ d3 = 97 then
        some (c0 + 256 * c1, b0 + 256 * b1,
              ra0 + 256 * ra1 + 65536 * ra2 + 16777216 * ra3,
              rest.take (l0 + 256 * l1 + 65536 * l2 + 16777216 * l3))
      else none
  | _ => none

/-- Every clipped-and-truncated sample lies in the int16 range. -/
theorem gainStep_mem_range (gain : ℚ) (s : Int) :
    -32768 ≤ gainStep gain s ∧ gainStep gain s ≤ 32767 := by
  unfold gainStep truncRat
  set q : ℚ := min (max ((s : ℚ) * gain) (-32768)) 32767 with hq
  have hlo : (-32768 : ℚ) ≤ q := le_min (le_max_right _ _) (by norm_num)
  have hhi : q ≤ 32767 := min_le_right _ _
  by_cases h0 : 0 ≤ q
  · simp only [h0, if_pos]
    have h1 : 0 ≤ ⌊q⌋ := Int.floor_nonneg.mpr h0
    have h2 : ⌊q⌋ ≤ ⌊(32767 : ℚ)⌋ := Int.floor_le_floor hhi
    have h3 : ⌊(32767 : ℚ)⌋ = 32767 := by norm_num
    omega
  · simp only [h0, if_neg, if_false]
    have h1 : (-32768 : ℚ) ≤ (⌈q⌉ : ℚ) := le_trans hlo (Int.le_ceil q)
    have h2 : (-32768 : ℤ) ≤ ⌈q⌉ := by exact_mod_cast h1
    have h3 : ⌈q⌉ ≤ 0 := Int.ceil_le.mpr (by exact_mod_cast le_of_not_le h0)
    omega

/-- Serializing then deserializing int16 samples in range is the
identity. -/
theorem bytesToInt16s_int16sToBytes (l : List Int)
    (h : ∀ s ∈ l, -32768 ≤ s ∧ s ≤ 32767) :
    bytesToInt16s (int16sToBytes l) = l := by
  induction l with
  | nil => rfl
  | cons s rest ih =>
      have hs := h s (by simp)
      have hrest : bytesToInt16s (int16sToBytes rest) = rest :=
        ih fun x hx => h x (by simp [hx])
      have hexp : int16sToBytes (s :: rest) =
          (s % 65536).toNat % 256 :: (s % 65536).toNat / 256 % 256 ::
            int16sToBytes rest := by
        simp [int16sToBytes, u16le]
      rw [hexp]
      simp only [bytesToInt16s, hrest]
      congr 1
      omega

/-- **C8.**  `_apply_gain` with gain `1.0` is the identity on the raw
bytes; with any other gain (even byte count) each decoded sample of
the output is the input sample multiplied by the gain and clipped into
`[-32768, 32767]` (then truncated to int16). -/
theorem c8_apply_gain (b : List Nat) (gain : ℚ) (hg : gain ≠ 1)
    (he : b.length % 2 = 0) :
    applyGain b 1 = some b ∧
    ∃ out, applyGain b gain = some out ∧
      bytesToInt16s out = (bytesToInt16s b).map (gainStep gain) := by
  refine ⟨by simp [applyGain], ?_⟩
  refine ⟨int16sToBytes ((bytesToInt16s b).map (gainStep gain)), ?_, ?_⟩
  · simp [applyGain, hg, he]
  · apply bytesToInt16s_int16sToBytes
    intro s hs
    obtain ⟨x, _, hx⟩ := List.mem_map.mp hs
    rw [← hx]
    exact gainStep_mem_range gain x

/-- **C8, witness.**  Gain 2 on the single sample 0. -/
theorem c8_apply_gain_witness :
    applyGain [0, 0] 1 = some [0, 0] ∧
    ∃ out, applyGain [0, 0] 2 = some out ∧
      bytesToInt16s out = (bytesToInt16s [0, 0]).map (gainStep 2) :=
  c8_apply_gain [0, 0] 2 (by norm_num) (by decide)

/-- **C9.**  Encoding frames with `pcm_frames_to_wav` at 16 kHz mono
and decoding the result returns exactly the concatenation of the
frames, with the header declaring 1 channel, 16 bits, 16000 Hz. -/
theorem c9_wav_roundtrip (frames : List (List Nat))
    (h : frames.flatten.length < 4294967296) :
    wavDecode (pcmFramesToWav frames 16000 1) =
      some (1, 16, 16000, frames.flatten) := by
  have hdig : frames.flatten.length % 256 +
      256 * (frames.flatten.length / 256 % 256) +
      65536 * (frames.flatten.length / 65536 % 256) +
      16777216 * (frames.flatten.length / 16777216 % 256) =
      frames.flatten.length := by omega
  simp only [pcmFramesToWav, u16le, u32le, List.cons_append,
    List.nil_append, wavDecode]
  rw [if_pos (by norm_num)]
  rw [hdig, List.take_length]

/-- **C9, witness.**  Two concrete frames round-trip. -/
theorem c9_wav_roundtrip_witness :
    wavDecode (pcmFramesToWav [[0, 1], [2, 3]] 16000 1) =
      some (1, 16, 16000, [0, 1, 2, 3]) := by
  have := c9_wav_roundtrip [[0, 1], [2, 3]] (by decide)
  simpa using this

/-! ## `src/capture.py` — the capture state machine

`_capture_loop` is embedded as a step function on an explicit state
record.  The microphone read, the wake-word engine and the VAD are the
loop's external inputs, so each iteration consumes an oracle telling
what those calls returned (or that they raised).  Callbacks become an
event list per iteration; an exception escaping the body becomes
`Except.error` (there is no general handler in the loop, so the error
is fatal to `run`). -/

/-- `WAKE_WORD_ENGINE`. -/
inductive Engine where
  | openwakeword
  | porcupine
deriving DecidableEq

/-- The configuration values `_capture_loop` converts to frame counts
(at `MIC_CHUNK_MS` = 30 ms per frame, a constant in `config.py`),
plus the engine choice and Porcupine's reported frame length. -/
structure Config where
  vadSilenceMs : Nat
  vadMinSpeechMs : Nat
  wakeListenTimeoutMs : Nat
  conversationTimeoutMs : Nat
  engine : Engine
  porcupineFrameLength : Nat
deriving DecidableEq

/-- `silence_limit = config.VAD_SILENCE_MS // config.MIC_CHUNK_MS`. -/
def Config.silenceLimit (cfg : Config) : Nat := cfg.vadSilenceMs / 30

/-- `min_speech = config.VAD_MIN_SPEECH_MS // config.MIC_CHUNK_MS`. -/
def Config.minSpeech (cfg : Config) : Nat := cfg.vadMinSpeechMs / 30

/-- `timeout_wake = config.WAKE_LISTEN_TIMEOUT_MS // config.MIC_CHUNK_MS`. -/
def Config.timeoutWake (cfg : Config) : Int :=
  ((cfg.wakeListenTimeoutMs / 30 : Nat) : Int)

/-- `timeout_convo = config.CONVERSATION_TIMEOUT_MS // config.MIC_CHUNK_MS`. -/
def Config.timeoutConvo (cfg : Config) : Int :=
  ((cfg.conversationTimeoutMs / 30 : Nat) : Int)

/-- The defaults of `config.py` with the default OpenWakeWord engine. -/
def defaultConfig : Config :=
  { vadSilenceMs := 1200, vadMinSpeechMs := 2000,
    wakeListenTimeoutMs := 10000, conversationTimeoutMs := 300000,
    engine := .openwakeword, porcupineFrameLength := 512 }

/-- A microphone frame: the raw bytes returned by
`stream.read(480)` (960 bytes for a full 30 ms frame). -/
abbrev Frame := List Nat

/-- `self._state`. -/
inductive CState where
  | idle
  | listening
deriving DecidableEq

/-- The mutable state of `MicrophoneCapture` visible to the loop: the
state string, the ring buffer and utterance buffer, the counters local
to `_capture_loop`, the control flags set by the orchestrator, and the
Porcupine re-chunker buffer. -/
structure CaptureState where
  state : CState
  ring : List Frame
  voiced : List Frame
  silenceCount : Nat
  timeoutLeft : Int
  wasMuted : Bool
  idleFrames : Nat
  inConversation : Bool
  muted : Bool
  resumeToListening : Bool
  resumeConversation : Bool
  wwResetPending : Bool
  ppnBuf : List Int
deriving DecidableEq

/-- The state at the top of `_capture_loop` after `__init__`. -/
def initialState : CaptureState :=
  { state := .idle, ring := [], voiced := [], silenceCount := 0,
    timeoutLeft := 0, wasMuted := false, idleFrames := 0,
    inConversation := false, muted := false, resumeToListening := false,
    resumeConversation := false, wwResetPending := false, ppnBuf := [] }

/-- Callbacks invoked during one iteration, in order. -/
inductive Event where
  | wakeWord
  | utterance (wav : List Nat)
  | listenTimeout
deriving DecidableEq

/-- An exception escaping the loop body.  `_capture_loop` has no
handler for these, so they terminate the capture thread. -/
inductive CaptureExn where
  | wwdError
  | vadError
deriving DecidableEq

/-- What the wake-word engine does when fed this frame. -/
inductive WwdResult where
  | raise
  | det (detected : Bool)
deriving DecidableEq

/-- What `vad.is_speech` returns for this frame. -/
inductive VadResult where
  | raise
  | speech (isSpeech : Bool)
deriving DecidableEq

/-- One loop iteration's inputs: the frame bytes and the oracles for
the engine calls made on it. -/
structure FrameInput where
  frame : Frame
  wwd : WwdResult
  vad : VadResult
deriving DecidableEq

/-- `stream.read` either raises `OSError` or delivers a frame. -/
inductive LoopInput where
  | readError
  | frame (fi : FrameInput)
deriving DecidableEq

/-- `deque(maxlen=n).append`: the oldest elements are dropped so that
at most `n` remain, newest at the tail. -/
def dequePush (n : Nat) (d : List Frame) (x : Frame) : List Frame :=
  (d ++ [x]).drop (d.length + 1 - n)

/-- The `while len(buf) >= fl` stride consumer of `_feed_porcupine`. -/
def consumeStrides (fl : Nat) (buf : List Int) : List Int :=
  if _h : 0 < fl ∧ fl ≤ buf.length then consumeStrides fl (buf.drop fl)
  else buf
termination_by buf.length
decreasing_by
  simp only [List.length_drop]
  omega

/-- `_feed_porcupine`: concatenate the new samples onto the re-chunker
buffer and consume whole `frame_length` strides.  The detection result
itself comes from the engine and is delivered by the oracle. -/
def feedPorcupine (fl : Nat) (buf : List Int) (pcm : List Int) : List Int :=
  consumeStrides fl (buf ++ pcm)

/-- The `if muted:` body of the loop: force IDLE semantics, clear the
ring and the utterance buffer, and — for the fixed-frame Porcupine
engine only — keep feeding the re-chunker with the live frame,
ignoring detections (`porcupine.process` may still raise). -/
def mutedStep (cfg : Config) (s : CaptureState) (fi : FrameInput) :
    Except CaptureExn (CaptureState × List Event) :=
  let s := { s with state := .idle, ring := [], voiced := [],
                    silenceCount := 0, wasMuted := true }
  if cfg.engine = .porcupine then
    match fi.wwd with
    | .raise => .error .wwdError
    | .det _ =>
        .ok ({ s with ppnBuf := feedPorcupine cfg.porcupineFrameLength
                        s.ppnBuf (bytesToInt16s fi.frame) }, [])
  else .ok (s, [])

/-- The `if self._state == "IDLE":` branch: append to the ring, run
`_detect_wake_word` (which first consumes a pending reset), and on
detection invoke `on_wake_word` and flush the ring into the utterance
buffer while transitioning to LISTENING with the wake timeout. -/
def idleStep (cfg : Config) (s : CaptureState) (fi : FrameInput) :
    Except CaptureExn (CaptureState × List Event) :=
  let s := { s with idleFrames := s.idleFrames + 1,
                    ring := dequePush 10 s.ring fi.frame }
  let s :=
    if cfg.engine = .porcupine then
      let s := if s.wwResetPending then
                 { s with wwResetPending := false, ppnBuf := [] }
               else s
      { s with ppnBuf := feedPorcupine cfg.porcupineFrameLength
                 s.ppnBuf (bytesToInt16s fi.frame) }
    else
      { s with wwResetPending := false }
  match fi.wwd with
  | .raise => .error .wwdError
  | .det detected =>
      if detected then
        .ok ({ s with idleFrames := 0, inConversation := false,
                      voiced := s.ring, silenceCount := 0,
                      timeoutLeft := cfg.timeoutWake,
                      state := .listening, ring := [] },
             [.wakeWord])
      else .ok (s, [])

/-- The `elif self._state == "LISTENING":` branch: decrement the
timeout (give up to IDLE at zero), append the frame to the utterance
buffer, and run the VAD; a long-enough silence run closes the
utterance — emitted if at least `min_speech` frames, else discarded
while staying in LISTENING. -/
def listeningStep (cfg : Config) (s : CaptureState) (fi : FrameInput) :
    Except CaptureExn (CaptureState × List Event) :=
  let s := { s with timeoutLeft := s.timeoutLeft - 1 }
  if s.timeoutLeft ≤ (0 : Int) then
    .ok ({ s with voiced := [], ring := [], silenceCount := 0,
                  state := .idle, inConversation := false },
         [.listenTimeout])
  else
    let s := { s with voiced := s.voiced ++ [fi.frame] }
    match fi.vad with
    | .raise => .error .vadError
    | .speech true =>
        .ok ({ s with silenceCount := 0,
                      timeoutLeft :=
                        if s.inConversation then cfg.timeoutConvo
                        else cfg.timeoutWake }, [])
    | .speech false =>
        let s := { s with silenceCount := s.silenceCount + 1 }
        if cfg.silenceLimit ≤ s.silenceCount then
          if cfg.minSpeech ≤ s.voiced.length then
            let wav := pcmFramesToWav s.voiced 16000 1
            let s := { s with voiced := [], ring := [],
                              silenceCount := 0 }
            if s.inConversation then .ok (s, [.utterance wav])
            else .ok ({ s with state := .idle }, [.utterance wav])
          else
            .ok ({ s with voiced := [], silenceCount := 0,
                          timeoutLeft :=
                            if s.inConversation then cfg.timeoutConvo
                            else cfg.timeoutWake }, [])
        else .ok (s, [])

/-- One iteration of the `while self._running` body of `_capture_loop`:
read (or fail to read) a frame, snapshot-and-clear the control flags,
handle mute, handle resume, then branch on IDLE/LISTENING.
`.ok (s, events)` continues to the next frame having invoked the
callbacks `events`; `.error e` is an exception escaping the body. -/
def step (cfg : Config) (s : CaptureState) :
    LoopInput → Except CaptureExn (CaptureState × List Event)
  | .readError => .ok (s, [])
  | .frame fi =>
    let muted := s.muted
    let resume := s.resumeToListening
    let resumeConv := s.resumeConversation
    let s := { s with resumeToListening := false, resumeConversation := false }
    if muted then mutedStep cfg s fi
    else
      let s := { s with wasMuted := false }
      let s :=
        if resume ∨ resumeConv then
          let inConv := resumeConv ∨ s.inConversation
          { s with state := .listening, inConversation := inConv,
                   timeoutLeft :=
                     if inConv then cfg.timeoutConvo else cfg.timeoutWake,
                   voiced := [], silenceCount := 0 }
        else s
      match s.state with
      | .idle => idleStep cfg s fi
      | .listening => listeningStep cfg s fi

/-- Run the capture loop over a list of inputs, accumulating the
emitted events; an escaped exception aborts the loop. -/
def run (cfg : Config) (s : CaptureState) :
    List LoopInput → Except CaptureExn (CaptureState × List Event)
  | [] => .ok (s, [])
  | inp :: rest =>
      match step cfg s inp with
      | .error e => .error e
      | .ok (s', evs) =>
          match run cfg s' rest with
          | .error e => .error e
          | .ok (s'', evs') => .ok (s'', evs ++ evs')

/-- Milliseconds of audio in a byte count of 16 kHz mono 16-bit PCM
(32 bytes per millisecond). -/
def pcmDurationMs (byteLen : Nat) : Nat := byteLen / 32

/-- Duration in milliseconds of the PCM payload of a WAV blob. -/
def wavDurationMs (wav : List Nat) : Option Nat :=
  (wavDecode wav).map fun r => pcmDurationMs r.2.2.2.length

/-- A 30 ms frame of digital silence (480 zero samples). -/
def zeroFrame : Frame := List.replicate 960 0

/-- An idle frame on which the wake word fires. -/
def wakeInput : LoopInput := .frame ⟨zeroFrame, .det true, .speech false⟩

/-- A listening frame the VAD classifies as speech. -/
def speechInput : LoopInput := .frame ⟨zeroFrame, .det false, .speech true⟩

/-- A listening frame the VAD classifies as silence. -/
def silenceInput : LoopInput := .frame ⟨zeroFrame, .det false, .speech false⟩

/-! ## `src/daemon.py` — `VoiceAssistantDaemon._clean_for_tts`

Each `re.sub` of the source becomes a character-level function; the
scan-and-replace semantics of `re.sub` (leftmost match, greedy
quantifiers, continue after the match, never rescan the replacement)
is implemented directly.  The recursions that consume a variable
number of characters per step take a fuel argument initialized to the
string length, which each step strictly exceeds. -/

/-- Python `\w`: word characters.  Exact on ASCII (letters, digits and
the underscore); word characters beyond ASCII are abstracted away. -/
def isWordChar (c : Char) : Bool := c.isAlphanum || c = '_'

/-- The backquote character (0x60). -/
def backquote : Char := Char.ofNat 96

/-- Length of the leading run of `c`. -/
def countLeading (c : Char) : List Char → Nat
  | x :: rest => if x = c then countLeading c rest + 1 else 0
  | [] => 0

/-- Whether the list starts with a Python-whitespace character. -/
def headIsSpace : List Char → Bool
  | c :: _ => isPySpace c
  | [] => false

/-- `re.sub(r'^#{1,6}\s+', '', text, flags=re.MULTILINE)`: at a line
start, one to six `#` followed by at least one whitespace character
(greedy, may cross newlines) are removed; seven or more `#` never
match.  The Boolean tracks whether the scan position is a line
start. -/
def stripHeadingsGo : Nat → Bool → List Char → List Char
  | 0, _, l => l
  | fuel + 1, atStart, l =>
      if atStart ∧ 1 ≤ countLeading '#' l ∧ countLeading '#' l ≤ 6 ∧
          headIsSpace (l.drop (countLeading '#' l)) = true then
        let rest := l.drop (countLeading '#' l)
        stripHeadingsGo fuel
          ((rest.takeWhile isPySpace).getLast? = some '\n')
          (rest.dropWhile isPySpace)
      else
        match l with
        | [] => []
        | c :: r => c :: stripHeadingsGo fuel (c = '\n') r

/-- Step 2 of `_clean_for_tts`. -/
def stripHeadings (l : List Char) : List Char :=
  stripHeadingsGo l.length true l

/-- `re.sub(r'^\s*[-*]\s+', '', text, flags=re.MULTILINE)`: at a line
start, optional whitespace, a `-` or `*` marker and at least one
whitespace character are removed.  Backtracking inside the greedy
`\s*` cannot help, so the marker must sit right after the maximal
whitespace run. -/
def bulletMatch (l : List Char) : Bool :=
  match l.dropWhile isPySpace with
  | m :: rest2 => (m = '-' || m = '*') && headIsSpace rest2
  | [] => false

def stripBulletsGo : Nat → Bool → List Char → List Char
  | 0, _, l => l
  | fuel + 1, atStart, l =>
      if atStart ∧ bulletMatch l = true then
        let rest2 := (l.dropWhile isPySpace).tail
        stripBulletsGo fuel
          ((rest2.takeWhile isPySpace).getLast? = some '\n')
          (rest2.dropWhile isPySpace)
      else
        match l with
        | [] => []
        | c :: r => c :: stripBulletsGo fuel (c = '\n') r

/-- Step 3 of `_clean_for_tts`. -/
def stripBullets (l : List Char) : List Char :=
  stripBulletsGo l.length true l

/-- For the text after a `[`: if the link pattern
`([^\]]*)\]\([^)]*\)` matches here, return what follows the closing
`)`, else `none`. -/
def linkTarget (rest : List Char) : Option (List Char) :=
  match rest.dropWhile (· ≠ ']') with
  | _ :: p :: rest2 =>
      if p = '(' then
        match rest2.dropWhile (· ≠ ')') with
        | _ :: rest3 => some rest3
        | [] => none
      else none
  | _ => none

/-- `re.sub(r'\[([^\]]*)\]\([^)]*\)', r'\1', text)`: a bracketed
anchor (no `]` inside) immediately followed by a parenthesized URL
(no `)` inside) is replaced by the anchor text, which is not
rescanned; on a failed match the scan advances past the `[`. -/
def stripLinksGo : Nat → List Char → List Char
  | 0, l => l
  | _ + 1, [] => []
  | fuel + 1, c :: rest =>
      if c = '[' then
        match linkTarget rest with
        | some rest3 => rest.takeWhile (· ≠ ']') ++ stripLinksGo fuel rest3
        | none => c :: stripLinksGo fuel rest
      else c :: stripLinksGo fuel rest

/-- Step 4 of `_clean_for_tts`. -/
def stripLinks (l : List Char) : List Char := stripLinksGo l.length l

/-- For the text after a backquote: if the inline-code pattern closes,
return what follows the closing backquote, else `none`. -/
def codeTarget (rest : List Char) : Option (List Char) :=
  match rest.dropWhile (· ≠ backquote) with
  | _ :: rest2 => some rest2
  | [] => none

/-- The inline-code substitution (backquote, any non-backquote run,
backquote, replaced by the inner run, not rescanned). -/
def stripInlineCodeGo : Nat → List Char → List Char
  | 0, l => l
  | _ + 1, [] => []
  | fuel + 1, c :: rest =>
      if c = backquote then
        match codeTarget rest with
        | some rest2 =>
            rest.takeWhile (· ≠ backquote) ++ stripInlineCodeGo fuel rest2
        | none => c :: stripInlineCodeGo fuel rest
      else c :: stripInlineCodeGo fuel rest

/-- Step 5 of `_clean_for_tts`. -/
def stripInlineCode (l : List Char) : List Char :=
  stripInlineCodeGo l.length l

/-- The Unicode ranges of the emoji-removal substitution. -/
def isEmojiChar (c : Char) : Bool :=
  (0x1F300 ≤ c.val && c.val ≤ 0x1F9FF) ||
  (0x2600 ≤ c.val && c.val ≤ 0x27BF) ||
  (0xFE00 ≤ c.val && c.val ≤ 0xFE0F) ||
  c.val = 0x200D ||
  (0x2702 ≤ c.val && c.val ≤ 0x27B0) ||
  (0x1FA00 ≤ c.val && c.val ≤ 0x1FA6F) ||
  (0x1FA70 ≤ c.val && c.val ≤ 0x1FAFF)

/-- The character class complementing the final symbol-stripping
substitution (word characters, whitespace, the punctuation
`. , ! ? ; : '`, the parentheses, and the span double-quote dash
slash) — what that substitution KEEPS.  Inside a Python class, the
double-quote dash slash span parses as the RANGE 0x22–0x2F, so
`" # $ % & ' ( ) * + , - . /` are all kept alongside the explicitly
listed punctuation. -/
def keptSymbol (c : Char) : Bool :=
  isWordChar c || isPySpace c || c = '.' || c = ',' || c = '!' ||
  c = '?' || c = ';' || c = ':' || c = Char.ofNat 39 ||
  (0x22 ≤ c.val && c.val ≤ 0x2F) || c = '(' || c = ')'

/-- `re.sub(r'\n{3,}', '\n\n', text)`: runs of three or more newlines
collapse to exactly two. -/
def collapseNewlinesGo : Nat → List Char → List Char
  | 0, l => l
  | _ + 1, [] => []
  | fuel + 1, c :: rest =>
      if c = '\n' ∧ 3 ≤ countLeading '\n' rest + 1 then
        '\n' :: '\n' :: collapseNewlinesGo fuel
          (rest.drop (countLeading '\n' rest))
      else c :: collapseNewlinesGo fuel rest

/-- Step 8 of `_clean_for_tts`. -/
def collapseNewlines (l : List Char) : List Char :=
  collapseNewlinesGo l.length l

/-- The class `[ \t]`. -/
def isSpaceTab (c : Char) : Bool := c = ' ' || c = '\t'

/-- `re.sub(r'[ \t]+', ' ', text)`: maximal runs of spaces and tabs
become a single space.  The Boolean remembers whether the previous
character belonged to a run. -/
def collapseSpacesGo : Bool → List Char → List Char
  | _, [] => []
  | prevRun, c :: rest =>
      if isSpaceTab c then
        if prevRun then collapseSpacesGo true rest
        else ' ' :: collapseSpacesGo true rest
      else c :: collapseSpacesGo false rest

/-- Step 9 of `_clean_for_tts`. -/
def collapseSpaces (l : List Char) : List Char := collapseSpacesGo false l

/-- `VoiceAssistantDaemon._clean_for_tts`: the nine substitutions of
the source in order — asterisk markers, headings, bullets, links,
inline code, emoji, stray symbols, blank-line and whitespace
collapsing — followed by `str.strip()`. -/
def cleanForTTS (text : String) : String :=
  let l1 := text.data.filter (· ≠ '*')
  let l2 := stripHeadings l1
  let l3 := stripBullets l2
  let l4 := stripLinks l3
  let l5 := stripInlineCode l4
  let l6 := l5.filter fun c => !isEmojiChar c
  let l7 := l6.filter keptSymbol
  let l8 := collapseNewlines l7
  let l9 := collapseSpaces l8
  pyStrip ⟨l9⟩

/-! ## Character-provenance lemmas for `_clean_for_tts` -/

/-- Heading removal only deletes characters. -/
theorem stripHeadingsGo_mem (fuel : Nat) :
    ∀ (b : Bool) (l : List Char) (c : Char),
      c ∈ stripHeadingsGo fuel b l → c ∈ l := by
  induction fuel with
  | zero =>
      intro b l c hc
      simp only [stripHeadingsGo] at hc
      exact hc
  | succ n ih =>
      intro b l c hc
      simp only [stripHeadingsGo] at hc
      split at hc
      · have h1 := ih _ _ _ hc
        have h2 := (List.dropWhile_sublist isPySpace).subset h1
        exact List.drop_subset _ _ h2
      · cases l with
        | nil => simp at hc
        | cons d r =>
            simp only [List.mem_cons] at hc ⊢
            rcases hc with h | h
            · exact Or.inl h
            · exact Or.inr (ih _ _ _ h)

/-- Bullet removal only deletes characters. -/
theorem stripBulletsGo_mem (fuel : Nat) :
    ∀ (b : Bool) (l : List Char) (c : Char),
      c ∈ stripBulletsGo fuel b l → c ∈ l := by
  induction fuel with
  | zero =>
      intro b l c hc
      simp only [stripBulletsGo] at hc
      exact hc
  | succ n ih =>
      intro b l c hc
      simp only [stripBulletsGo] at hc
      split at hc
      · have h1 := ih _ _ _ hc
        have h2 := (List.dropWhile_sublist isPySpace).subset h1
        have h3 := (List.tail_sublist _).subset h2
        exact (List.dropWhile_sublist isPySpace).subset h3
      · cases l with
        | nil => simp at hc
        | cons d r =>
            simp only [List.mem_cons] at hc ⊢
            rcases hc with h | h
            · exact Or.inl h
            · exact Or.inr (ih _ _ _ h)

/-- Whatever follows a matched link pattern consists of input
characters. -/
theorem linkTarget_mem (rest rest3 : List Char)
    (h : linkTarget rest = some rest3) : ∀ c ∈ rest3, c ∈ rest := by
  intro c hc
  unfold linkTarget at h
  split at h
  · rename_i x p rest2 heq
    split at h
    · split at h
      · rename_i y rest4 heq2
        simp only [Option.some.injEq] at h
        subst h
        have h1 : c ∈ rest2.dropWhile (· ≠ ')') := by
          rw [heq2]; exact List.mem_cons_of_mem _ hc
        have h2 : c ∈ rest2 := (List.dropWhile_sublist _).subset h1
        have h3 : c ∈ rest.dropWhile (· ≠ ']') := by
          rw [heq]
          exact List.mem_cons_of_mem _ (List.mem_cons_of_mem _ h2)
        exact (List.dropWhile_sublist _).subset h3
      · exact absurd h (by simp)
    · exact absurd h (by simp)
  · exact absurd h (by simp)

/-- Whatever follows a matched inline-code pattern consists of input
characters. -/
theorem codeTarget_mem (rest rest2 : List Char)
    (h : codeTarget rest = some rest2) : ∀ c ∈ rest2, c ∈ rest := by
  intro c hc
  unfold codeTarget at h
  split at h
  · rename_i x rest4 heq
    simp only [Option.some.injEq] at h
    subst h
    have h1 : c ∈ rest.dropWhile (· ≠ backquote) := by
      rw [heq]; exact List.mem_cons_of_mem _ hc
    exact (List.dropWhile_sublist _).subset h1
  · exact absurd h (by simp)

/-- Link rewriting only keeps characters of the input (the anchor text
and the unmatched remainder). -/
theorem stripLinksGo_mem (fuel : Nat) :
    ∀ (l : List Char) (c : Char), c ∈ stripLinksGo fuel l → c ∈ l := by
  induction fuel with
  | zero =>
      intro l c hc
      simp only [stripLinksGo] at hc
      exact hc
  | succ n ih =>
      intro l c hc
      cases l with
      | nil => simp [stripLinksGo] at hc
      | cons d rest =>
          simp only [stripLinksGo] at hc
          split at hc
          · split at hc
            · rename_i rest3 heq
              rw [List.mem_append] at hc
              rcases hc with h | h
              · exact List.mem_cons_of_mem _
                  ((List.takeWhile_sublist _).subset h)
              · exact List.mem_cons_of_mem _
                  (linkTarget_mem _ _ heq c (ih _ _ h))
            · simp only [List.mem_cons] at hc ⊢
              rcases hc with h | h
              · exact Or.inl h
              · exact Or.inr (ih _ _ h)
          · simp only [List.mem_cons] at hc ⊢
            rcases hc with h | h
            · exact Or.inl h
            · exact Or.inr (ih _ _ h)

/-- Inline-code rewriting only keeps characters of the input. -/
theorem stripInlineCodeGo_mem (fuel : Nat) :
    ∀ (l : List Char) (c : Char), c ∈ stripInlineCodeGo fuel l → c ∈ l := by
  induction fuel with
  | zero =>
      intro l c hc
      simp only [stripInlineCodeGo] at hc
      exact hc
  | succ n ih =>
      intro l c hc
      cases l with
      | nil => simp [stripInlineCodeGo] at hc
      | cons d rest =>
          simp only [stripInlineCodeGo] at hc
          split at hc
          · split at hc
            · rename_i rest2 heq
              rw [List.mem_append] at hc
              rcases hc with h | h
              · exact List.mem_cons_of_mem _
                  ((List.takeWhile_sublist _).subset h)
              · exact List.mem_cons_of_mem _
                  (codeTarget_mem _ _ heq c (ih _ _ h))
            · simp only [List.mem_cons] at hc ⊢
              rcases hc with h | h
              · exact Or.inl h
              · exact Or.inr (ih _ _ h)
          · simp only [List.mem_cons] at hc ⊢
            rcases hc with h | h
            · exact Or.inl h
            · exact Or.inr (ih _ _ h)

/-- Blank-line collapsing only keeps input characters or inserts
newlines. -/
theorem collapseNewlinesGo_mem (fuel : Nat) :
    ∀ (l : List Char) (c : Char),
      c ∈ collapseNewlinesGo fuel l → c ∈ l ∨ c = '\n' := by
  induction fuel with
  | zero => intro l c hc; exact Or.inl (by simpa [collapseNewlinesGo] using hc)
  | succ n ih =>
      intro l c hc
      cases l with
      | nil => simp [collapseNewlinesGo] at hc
      | cons d rest =>
          simp only [collapseNewlinesGo] at hc
          split at hc
          · simp only [List.mem_cons] at hc
            rcases hc with h | h | h
            · exact Or.inr h
            · exact Or.inr h
            · rcases ih _ _ h with h1 | h1
              · exact Or.inl (List.mem_cons_of_mem _
                  (List.drop_subset _ _ h1))
              · exact Or.inr h1
          · simp only [List.mem_cons] at hc
            rcases hc with h | h
            · exact Or.inl (by simp [h])
            · rcases ih _ _ h with h1 | h1
              · exact Or.inl (List.mem_cons_of_mem _ h1)
              · exact Or.inr h1

/-- Whitespace collapsing only keeps input characters or inserts
spaces. -/
theorem collapseSpacesGo_mem :
    ∀ (b : Bool) (l : List Char) (c : Char),
      c ∈ collapseSpacesGo b l → c ∈ l ∨ c = ' ' := by
  intro b l
  induction l generalizing b with
  | nil => intro c hc; simp [collapseSpacesGo] at hc
  | cons d rest ih =>
      intro c hc
      simp only [collapseSpacesGo] at hc
      split at hc
      · split at hc
        · rcases ih _ _ hc with h | h
          · exact Or.inl (List.mem_cons_of_mem _ h)
          · exact Or.inr h
        · simp only [List.mem_cons] at hc
          rcases hc with h | h
          · exact Or.inr h
          · rcases ih _ _ h with h1 | h1
            · exact Or.inl (List.mem_cons_of_mem _ h1)
            · exact Or.inr h1
      · simp only [List.mem_cons] at hc
        rcases hc with h | h
        · exact Or.inl (by simp [h])
        · rcases ih _ _ h with h1 | h1
          · exact Or.inl (List.mem_cons_of_mem _ h1)
          · exact Or.inr h1

/-- Stripping only deletes characters at the ends. -/
theorem pyStrip_mem (s : String) (c : Char) (hc : c ∈ (pyStrip s).data) :
    c ∈ s.data := by
  simp only [pyStrip] at hc
  rw [List.mem_reverse] at hc
  have h1 := (List.dropWhile_sublist isPySpace).subset hc
  rw [List.mem_reverse] at h1
  exact (List.dropWhile_sublist isPySpace).subset h1

/-! ## Capture-loop lemmas -/

/-- The ring buffer holds at most `_PADDING_CHUNKS = 10` frames. -/
theorem dequePush_length_le (d : List Frame) (x : Frame) :
    (dequePush 10 d x).length ≤ 10 := by
  simp only [dequePush, List.length_drop, List.length_append,
    List.length_cons, List.length_nil]
  omega

/-- Flattening a list of 960-byte frames yields `960 * count` bytes. -/
theorem flatten_length_const (l : List Frame)
    (h : ∀ f ∈ l, f.length = 960) : l.flatten.length = 960 * l.length := by
  induction l with
  | nil => rfl
  | cons f rest ih =>
      simp only [List.flatten_cons, List.length_append, List.length_cons]
      rw [h f (by simp), ih fun g hg => h g (by simp [hg])]
      ring

/-- An utterance emitted by the LISTENING branch is the WAV encoding of
the utterance buffer extended by the current frame, and that buffer
passed the `min_speech` gate. -/
theorem listeningStep_utterance (cfg : Config) (t : CaptureState)
    (fi : FrameInput) (t' : CaptureState) (evs : List Event) (w : List Nat)
    (hstep : listeningStep cfg t fi = .ok (t', evs))
    (hmem : Event.utterance w ∈ evs) :
    w = pcmFramesToWav (t.voiced ++ [fi.frame]) 16000 1 ∧
      cfg.minSpeech ≤ t.voiced.length + 1 := by
  simp only [listeningStep] at hstep
  split at hstep
  · simp only [Except.ok.injEq, Prod.mk.injEq] at hstep
    obtain ⟨-, rfl⟩ := hstep
    simp at hmem
  · split at hstep
    · exact absurd hstep (by simp)
    · simp only [Except.ok.injEq, Prod.mk.injEq] at hstep
      obtain ⟨-, rfl⟩ := hstep
      simp at hmem
    · split at hstep
      · split at hstep
        · rename_i hmin
          split at hstep <;>
          · simp only [Except.ok.injEq, Prod.mk.injEq] at hstep
            obtain ⟨-, rfl⟩ := hstep
            simp only [List.mem_singleton, Event.utterance.injEq] at hmem
            subst hmem
            refine ⟨rfl, ?_⟩
            simpa using hmin
        · simp only [Except.ok.injEq, Prod.mk.injEq] at hstep
          obtain ⟨-, rfl⟩ := hstep
          simp at hmem
      · simp only [Except.ok.injEq, Prod.mk.injEq] at hstep
        obtain ⟨-, rfl⟩ := hstep
        simp at hmem

/-- The muted branch never invokes a callback. -/
theorem mutedStep_no_events (cfg : Config) (s : CaptureState)
    (fi : FrameInput) (s' : CaptureState) (evs : List Event)
    (hstep : mutedStep cfg s fi = .ok (s', evs)) : evs = [] := by
  simp only [mutedStep] at hstep
  split at hstep
  · split at hstep
    · exact absurd hstep (by simp)
    · simp only [Except.ok.injEq, Prod.mk.injEq] at hstep
      exact hstep.2.symm
  · simp only [Except.ok.injEq, Prod.mk.injEq] at hstep
    exact hstep.2.symm

/-- The IDLE branch never emits an utterance. -/
theorem idleStep_no_utterance (cfg : Config) (s : CaptureState)
    (fi : FrameInput) (s' : CaptureState) (evs : List Event) (w : List Nat)
    (hstep : idleStep cfg s fi = .ok (s', evs))
    (hmem : Event.utterance w ∈ evs) : False := by
  simp only [idleStep] at hstep
  split at hstep
  · exact absurd hstep (by simp)
  · split at hstep <;>
    · simp only [Except.ok.injEq, Prod.mk.injEq] at hstep
      obtain ⟨-, rfl⟩ := hstep
      simp at hmem

/-- Any utterance emitted by one loop iteration is the WAV encoding of
a buffer of frames, each of which was already in the utterance buffer
or is the current frame, whose length passed the `min_speech` gate. -/
theorem step_utterance_shape (cfg : Config) (s : CaptureState)
    (fi : FrameInput) (s' : CaptureState) (evs : List Event) (w : List Nat)
    (hstep : step cfg s (.frame fi) = .ok (s', evs))
    (hmem : Event.utterance w ∈ evs) :
    ∃ vs : List Frame, w = pcmFramesToWav vs 16000 1 ∧
      cfg.minSpeech ≤ vs.length ∧ vs.length ≤ s.voiced.length + 1 ∧
      ∀ f ∈ vs, f ∈ s.voiced ∨ f = fi.frame := by
  simp only [step] at hstep
  split at hstep
  · have := mutedStep_no_events _ _ _ _ _ hstep
    subst this
    simp at hmem
  · by_cases hres : s.resumeToListening = true ∨ s.resumeConversation = true
    · -- resume: the utterance buffer is cleared, then LISTENING runs
      rw [if_pos hres] at hstep
      split at hstep
      · rename_i heq
        simp at heq
      · have h := listeningStep_utterance _ _ _ _ _ _ hstep hmem
        refine ⟨[fi.frame], ?_, ?_, ?_, ?_⟩
        · simpa using h.1
        · simpa using h.2
        · simp
        · simp
    · -- no resume: branch on the unchanged state
      rw [if_neg hres] at hstep
      split at hstep
      · exact absurd (idleStep_no_utterance _ _ _ _ _ _ hstep hmem) (fun h => h)
      · have h := listeningStep_utterance _ _ _ _ _ _ hstep hmem
        refine ⟨s.voiced ++ [fi.frame], ?_, ?_, ?_, ?_⟩
        · simpa using h.1
        · simpa using h.2
        · simp
        · intro f hf
          rcases List.mem_append.mp hf with hl | hr
          · exact Or.inl hl
          · exact Or.inr (by simpa using hr)

/-! ## Theorems -/

/-- **C3.**  In LISTENING, when the silence run reaches the silence
limit: an utterance one frame short of `min_speech` is discarded — the
machine stays in LISTENING with cleared buffer and counters and the
timeout reset to the conversation or wake ceiling, emitting nothing —
while a buffer exactly at (or above) the boundary is emitted. -/
theorem c3_min_speech_boundary (cfg : Config) (s : CaptureState)
    (fi : FrameInput) (hm : s.muted = false)
    (hr : s.resumeToListening = false) (hrc : s.resumeConversation = false)
    (hst : s.state = .listening) (ht : (1 : Int) < s.timeoutLeft)
    (hvad : fi.vad = .speech false)
    (hsil : cfg.silenceLimit ≤ s.silenceCount + 1) :
    (s.voiced.length + 1 < cfg.minSpeech →
      ∃ s', step cfg s (.frame fi) = .ok (s', []) ∧
        s'.state = .listening ∧ s'.voiced = [] ∧ s'.silenceCount = 0 ∧
        s'.timeoutLeft =
          (if s.inConversation then cfg.timeoutConvo else cfg.timeoutWake)) ∧
    (cfg.minSpeech ≤ s.voiced.length + 1 →
      ∃ s', step cfg s (.frame fi) =
        .ok (s', [Event.utterance
          (pcmFramesToWav (s.voiced ++ [fi.frame]) 16000 1)])) := by
  obtain ⟨st, rg, vd, sc, tl, wm, idf, ic, mu, r1, r2, wr, pb⟩ := s
  dsimp only at hm hr hrc hst ht hsil ⊢
  subst hm hr hrc hst
  have hnt : ¬(tl - 1 ≤ (0 : Int)) := by omega
  constructor
  · intro hlt
    have hms : ¬(cfg.minSpeech ≤ vd.length + 1) := by omega
    have hstep : step cfg
        ⟨.listening, rg, vd, sc, tl, wm, idf, ic, false, false, false, wr, pb⟩
        (.frame fi) =
        .ok (⟨.listening, rg, [], 0,
          (if ic = true then cfg.timeoutConvo else cfg.timeoutWake),
          false, idf, ic, false, false, false, wr, pb⟩, []) := by
      simp [step, listeningStep, hnt, hvad, hsil, hms]
    exact ⟨_, hstep, rfl, rfl, rfl, rfl⟩
  · intro hge
    rcases Bool.eq_false_or_eq_true ic with hc | hc <;> subst hc
    · exact ⟨⟨.listening, [], [], 0, tl - 1, false, idf, true, false, false,
        false, wr, pb⟩, by simp [step, listeningStep, hnt, hvad, hsil, hge]⟩
    · exact ⟨⟨.idle, [], [], 0, tl - 1, false, idf, false, false, false,
        false, wr, pb⟩, by simp [step, listeningStep, hnt, hvad, hsil, hge]⟩

/-- A 60 ms minimum-speech configuration (2 frames at 30 ms). -/
def c3Config : Config := ⟨30, 60, 300, 600, .openwakeword, 512⟩

/-- A LISTENING state whose buffer is one frame short of `min_speech`
once the current frame is appended. -/
def c3Reject : CaptureState :=
  { initialState with state := .listening, timeoutLeft := 5 }

/-- A LISTENING state whose buffer is exactly at `min_speech` once the
current frame is appended. -/
def c3Accept : CaptureState :=
  { initialState with state := .listening, timeoutLeft := 5,
                      voiced := [[0, 0]] }

/-- A frame the VAD classifies as silence. -/
def c3Input : FrameInput := ⟨[], .det false, .speech false⟩

/-- **C3, witness.**  With a 2-frame minimum: a 1-frame utterance keeps
LISTENING with nothing emitted, a 2-frame utterance is emitted. -/
theorem c3_min_speech_boundary_witness :
    (∃ s', step c3Config c3Reject (.frame c3Input) = .ok (s', []) ∧
      s'.state = .listening ∧ s'.voiced = [] ∧ s'.silenceCount = 0 ∧
      s'.timeoutLeft = (if c3Reject.inConversation then c3Config.timeoutConvo
        else c3Config.timeoutWake)) ∧
    (∃ s', step c3Config c3Accept (.frame c3Input) =
      .ok (s', [Event.utterance
        (pcmFramesToWav (c3Accept.voiced ++ [c3Input.frame]) 16000 1)])) := by
  constructor
  · exact (c3_min_speech_boundary c3Config c3Reject c3Input rfl rfl rfl rfl
      (by decide) rfl (by decide)).1 (by decide)
  · exact (c3_min_speech_boundary c3Config c3Accept c3Input rfl rfl rfl rfl
      (by decide) rfl (by decide)).2 (by decide)

/-- **C7, amended.**  Every character of `_clean_for_tts` output is a
word character (letter, digit or underscore — so `_` SURVIVES),
whitespace, or a member of the kept symbol class — the basic
punctuation `. , ! ? ; : ' " ( )` EXTENDED by `# $ % & + - /`
(the double-quote..slash range of the final character class); and no
asterisk ever survives. -/
theorem c7_clean_for_tts_charset (t : String) :
    (∀ c ∈ (cleanForTTS t).data, keptSymbol c = true) ∧
    '*' ∉ (cleanForTTS t).data := by
  unfold cleanForTTS
  constructor
  · intro c hc
    have h9 := pyStrip_mem _ _ hc
    rcases collapseSpacesGo_mem _ _ _ h9 with h8 | hsp
    · rcases collapseNewlinesGo_mem _ _ _ h8 with h7 | hnl
      · exact (List.mem_filter.mp h7).2
      · subst hnl; decide
    · subst hsp; decide
  · intro hc
    have h9 := pyStrip_mem _ _ hc
    rcases collapseSpacesGo_mem _ _ _ h9 with h8 | hsp
    · rcases collapseNewlinesGo_mem _ _ _ h8 with h7 | hnl
      · have h6 := (List.mem_filter.mp h7).1
        have h5 := (List.mem_filter.mp h6).1
        have h4 := stripInlineCodeGo_mem _ _ _ h5
        have h3 := stripLinksGo_mem _ _ _ h4
        have h2 := stripBulletsGo_mem _ _ _ _ h3
        have h1 := stripHeadingsGo_mem _ _ _ _ h2
        have := (List.mem_filter.mp h1).2
        simp at this
      · exact absurd hnl (by decide)
    · exact absurd hsp (by decide)

/-- **C7, counterexample.**  The claim says italic markers `_` are
removed and that only `. , ! ? ; : ' " - / ( )` survive among
non-alphanumeric, non-whitespace characters.  But `\w` keeps the
underscore and the final character class keeps the 0x22–0x2F range,
so `_` and `$` pass through unchanged. -/
theorem c7_stray_symbols_survive :
    cleanForTTS "_ $5" = "_ $5" ∧
    ('_' ∈ (cleanForTTS "_ $5").data ∧ '_'.isAlphanum = false ∧
      isPySpace '_' = false ∧
      '_' ∉ ['.', ',', '!', '?', ';', ':', Char.ofNat 39, Char.ofNat 34,
        '-', '/', '(', ')']) ∧
    ('$' ∈ (cleanForTTS "_ $5").data ∧ '$'.isAlphanum = false ∧
      isPySpace '$' = false ∧
      '$' ∉ ['.', ',', '!', '?', ';', ':', Char.ofNat 39, Char.ofNat 34,
        '-', '/', '(', ')']) := by
  refine ⟨?_, ⟨?_, ?_, ?_, ?_⟩, ⟨?_, ?_, ?_, ?_⟩⟩ <;> decide

/-- **C5.**  While muted, an iteration empties the utterance buffer
and the ring, forces IDLE, fires no callback, and keeps `muted` set;
with the fixed-frame Porcupine engine the frame is still fed to the
re-chunker (detection ignored), while OpenWakeWord is not fed. -/
theorem c5_muted_discards (cfg : Config) (s : CaptureState)
    (fi : FrameInput) (b : Bool) (hm : s.muted = true)
    (hww : fi.wwd = .det b) :
    ∃ s', step cfg s (.frame fi) = .ok (s', []) ∧
      s'.voiced = [] ∧ s'.ring = [] ∧ s'.state = .idle ∧
      s'.silenceCount = 0 ∧ s'.wasMuted = true ∧ s'.muted = true ∧
      s'.ppnBuf = (if cfg.engine = .porcupine then
          feedPorcupine cfg.porcupineFrameLength s.ppnBuf
            (bytesToInt16s fi.frame)
        else s.ppnBuf) := by
  obtain ⟨st, rg, vd, sc, tl, wm, idf, ic, mu, r1, r2, wr, pb⟩ := s
  dsimp only at hm ⊢
  subst hm
  by_cases he : cfg.engine = .porcupine
  · exact ⟨⟨.idle, [], [], 0, tl, true, idf, ic, true, false, false, wr,
      feedPorcupine cfg.porcupineFrameLength pb (bytesToInt16s fi.frame)⟩,
      by simp [step, mutedStep, he, hww], rfl, rfl, rfl, rfl, rfl, rfl,
      by simp [he]⟩
  · exact ⟨⟨.idle, [], [], 0, tl, true, idf, ic, true, false, false, wr, pb⟩,
      by simp [step, mutedStep, he, hww], rfl, rfl, rfl, rfl, rfl, rfl,
      by simp [he]⟩

/-- The default configuration with the Porcupine engine. -/
def c5Config : Config := { defaultConfig with engine := .porcupine }

/-- A muted state with a non-empty re-chunker buffer. -/
def c5State : CaptureState := { initialState with muted := true, ppnBuf := [7] }

/-- A frame carrying one sample, with a detection that must be ignored. -/
def c5Input : FrameInput := ⟨[0, 0], .det true, .speech false⟩

/-- **C5, witness.**  A muted Porcupine iteration at a concrete state. -/
theorem c5_muted_discards_witness :
    ∃ s', step c5Config c5State (.frame c5Input) = .ok (s', []) ∧
      s'.voiced = [] ∧ s'.ring = [] ∧ s'.state = .idle ∧
      s'.silenceCount = 0 ∧ s'.wasMuted = true ∧ s'.muted = true ∧
      s'.ppnBuf = (if c5Config.engine = .porcupine then
          feedPorcupine c5Config.porcupineFrameLength c5State.ppnBuf
            (bytesToInt16s c5Input.frame)
        else c5State.ppnBuf) :=
  c5_muted_discards c5Config c5State c5Input true rfl rfl

/-- **C6.**  On wake-word detection in IDLE the only event of the
iteration is `wakeWord` (so it precedes every frame of the upcoming
utterance), the utterance buffer is initialized with the ring frames
(at most 10, in order, the current frame last), the ring is cleared
and LISTENING starts with the wake timeout; moreover any utterance a
LISTENING iteration later emits is the WAV of its buffer extended by
the current frame, so a buffer still carrying the flushed padding
emits it. -/
theorem c6_wake_flushes_ring (cfg : Config) (s : CaptureState)
    (fi : FrameInput) (hm : s.muted = false)
    (hr : s.resumeToListening = false) (hrc : s.resumeConversation = false)
    (hst : s.state = .idle) (hdet : fi.wwd = .det true) :
    (∃ s', step cfg s (.frame fi) = .ok (s', [Event.wakeWord]) ∧
      s'.voiced = dequePush 10 s.ring fi.frame ∧ s'.voiced.length ≤ 10 ∧
      s'.ring = [] ∧ s'.state = .listening ∧ s'.silenceCount = 0 ∧
      s'.timeoutLeft = cfg.timeoutWake) ∧
    (∀ (t : CaptureState) (fi2 : FrameInput) (t' : CaptureState)
       (evs : List Event) (w : List Nat),
      t.muted = false → t.resumeToListening = false →
      t.resumeConversation = false → t.state = .listening →
      step cfg t (.frame fi2) = .ok (t', evs) → Event.utterance w ∈ evs →
      w = pcmFramesToWav (t.voiced ++ [fi2.frame]) 16000 1) := by
  constructor
  · obtain ⟨st, rg, vd, sc, tl, wm, idf, ic, mu, r1, r2, wr, pb⟩ := s
    dsimp only at hm hr hrc hst ⊢
    subst hm hr hrc hst
    by_cases he : cfg.engine = .porcupine
    · rcases Bool.eq_false_or_eq_true wr with hw | hw <;> subst hw
      · exact ⟨⟨.listening, [], dequePush 10 rg fi.frame, 0,
          cfg.timeoutWake, false, 0, false, false, false, false, false,
          feedPorcupine cfg.porcupineFrameLength [] (bytesToInt16s fi.frame)⟩,
          by simp [step, idleStep, he, hdet],
          rfl, dequePush_length_le rg fi.frame, rfl, rfl, rfl, rfl⟩
      · exact ⟨⟨.listening, [], dequePush 10 rg fi.frame, 0,
          cfg.timeoutWake, false, 0, false, false, false, false, false,
          feedPorcupine cfg.porcupineFrameLength pb (bytesToInt16s fi.frame)⟩,
          by simp [step, idleStep, he, hdet],
          rfl, dequePush_length_le rg fi.frame, rfl, rfl, rfl, rfl⟩
    · exact ⟨⟨.listening, [], dequePush 10 rg fi.frame, 0,
        cfg.timeoutWake, false, 0, false, false, false, false, false, pb⟩,
        by simp [step, idleStep, he, hdet],
        rfl, dequePush_length_le rg fi.frame, rfl, rfl, rfl, rfl⟩
  · intro t fi2 t' evs w htm htr htrc htst hstep hmem
    obtain ⟨st, rg, vd, sc, tl, wm, idf, ic, mu, r1, r2, wr, pb⟩ := t
    dsimp only at htm htr htrc htst ⊢
    subst htm htr htrc htst
    simp only [step] at hstep
    norm_num at hstep
    exact (listeningStep_utterance _ _ _ _ _ _ hstep hmem).1

/-- An idle frame on which the wake word fires (short frame). -/
def c6Input : FrameInput := ⟨[1, 2], .det true, .speech false⟩

/-- An IDLE state whose ring already holds a frame of padding. -/
def c6State : CaptureState := { initialState with ring := [[3, 4]] }

/-- **C6, witness.**  A concrete wake transition flushing a 1-frame
ring. -/
theorem c6_wake_flushes_ring_witness :
    ∃ s', step defaultConfig c6State (.frame c6Input) =
        .ok (s', [Event.wakeWord]) ∧
      s'.voiced = dequePush 10 c6State.ring c6Input.frame ∧
      s'.voiced.length ≤ 10 ∧ s'.ring = [] ∧ s'.state = .listening ∧
      s'.silenceCount = 0 ∧ s'.timeoutLeft = defaultConfig.timeoutWake :=
  (c6_wake_flushes_ring defaultConfig c6State c6Input rfl rfl rfl rfl rfl).1

/-- **C4, amended.**  An `OSError` on the microphone read is logged and
the loop continues with the state untouched; but an exception raised
by the VAD in LISTENING or by the wake-word engine in IDLE is *not*
caught — it escapes the loop body (`Except.error`), terminating the
capture thread, instead of forcing IDLE and continuing. -/
theorem c4_exception_semantics (cfg : Config) (s : CaptureState)
    (fi : FrameInput) (hm : s.muted = false)
    (hr : s.resumeToListening = false) (hrc : s.resumeConversation = false) :
    step cfg s .readError = .ok (s, []) ∧
    (s.state = .listening → (1 : Int) < s.timeoutLeft → fi.vad = .raise →
      step cfg s (.frame fi) = .error .vadError) ∧
    (s.state = .idle → fi.wwd = .raise →
      step cfg s (.frame fi) = .error .wwdError) := by
  obtain ⟨st, rg, vd, sc, tl, wm, idf, ic, mu, r1, r2, wr, pb⟩ := s
  dsimp only at hm hr hrc ⊢
  subst hm hr hrc
  refine ⟨rfl, ?_, ?_⟩
  · intro hst ht hvraise
    subst hst
    have hnt : ¬(tl - 1 ≤ (0 : Int)) := by omega
    simp [step, listeningStep, hnt, hvraise]
  · intro hst hwraise
    subst hst
    by_cases he : cfg.engine = .porcupine <;>
      simp [step, idleStep, he, hwraise]

/-- A LISTENING state far from its timeout. -/
def c4Listening : CaptureState :=
  { initialState with state := .listening, timeoutLeft := 5 }

/-- **C4, amended, witness.**  The three behaviours at concrete
states. -/
theorem c4_exception_semantics_witness :
    step defaultConfig initialState .readError = .ok (initialState, []) ∧
    step defaultConfig c4Listening (.frame ⟨[], .det false, .raise⟩) =
      .error .vadError ∧
    step defaultConfig initialState (.frame ⟨[], .raise, .speech false⟩) =
      .error .wwdError := by
  refine ⟨(c4_exception_semantics defaultConfig initialState
      ⟨[], .raise, .speech false⟩ rfl rfl rfl).1, ?_, ?_⟩
  · exact (c4_exception_semantics defaultConfig c4Listening
      ⟨[], .det false, .raise⟩ rfl rfl rfl).2.1 rfl (by decide) rfl
  · exact (c4_exception_semantics defaultConfig initialState
      ⟨[], .raise, .speech false⟩ rfl rfl rfl).2.2 rfl rfl

/-- A wake-word hit followed by a frame on which the VAD raises. -/
def c4Inputs : List LoopInput :=
  [.frame ⟨[], .det true, .speech false⟩, .frame ⟨[], .det false, .raise⟩]

/-- **C4, counterexample.**  The claim says a VAD exception is caught
and the machine is forced back to IDLE with the loop continuing.  In
the source there is no handler: running the loop over a wake followed
by a raising VAD call aborts with the escaped exception instead of
yielding an `ok` continuation. -/
theorem c4_exception_kills_loop :
    run defaultConfig initialState c4Inputs = .error .vadError := by rfl

/-- **C2, amended.**  Every utterance emitted by a loop iteration over
960-byte microphone frames decodes to `30 * n` milliseconds of 16 kHz
mono 16-bit PCM for some frame count `n ≥ min_speech` — i.e. at least
`(VAD_MIN_SPEECH_MS // 30) * 30` ms, which is 1980 ms (not 2000 ms)
at the default `VAD_MIN_SPEECH_MS = 2000`. -/
theorem c2_utterance_duration (cfg : Config) (s : CaptureState)
    (fi : FrameInput) (s' : CaptureState) (evs : List Event) (w : List Nat)
    (hframes : ∀ f ∈ s.voiced, f.length = 960) (hf : fi.frame.length = 960)
    (hbound : s.voiced.length < 4473923)
    (hstep : step cfg s (.frame fi) = .ok (s', evs))
    (hmem : Event.utterance w ∈ evs) :
    ∃ n, cfg.minSpeech ≤ n ∧ wavDurationMs w = some (30 * n) := by
  obtain ⟨vs, hw, hmin, hlen, hsub⟩ :=
    step_utterance_shape cfg s fi s' evs w hstep hmem
  have hall : ∀ f ∈ vs, f.length = 960 := by
    intro f hfv
    rcases hsub f hfv with h1 | h1
    · exact hframes f h1
    · rw [h1]; exact hf
  have hflat : vs.flatten.length = 960 * vs.length :=
    flatten_length_const vs hall
  have hb : vs.flatten.length < 4294967296 := by rw [hflat]; omega
  refine ⟨vs.length, hmin, ?_⟩
  rw [hw]
  unfold wavDurationMs
  rw [c9_wav_roundtrip vs hb]
  show some (pcmDurationMs vs.flatten.length) = some (30 * vs.length)
  congr 1
  unfold pcmDurationMs
  rw [hflat]
  omega

/-- A LISTENING state one silence frame away from closing an utterance
of exactly `min_speech = 66` default frames. -/
def c2State : CaptureState :=
  { initialState with state := .listening,
                      voiced := List.replicate 65 zeroFrame,
                      silenceCount := 39, timeoutLeft := 5 }

/-- The state after that closing iteration. -/
def c2Final : CaptureState := { initialState with timeoutLeft := 4 }

/-- The WAV of 66 zero frames (1980 ms). -/
def c2Wav : List Nat := pcmFramesToWav (List.replicate 66 zeroFrame) 16000 1

set_option maxRecDepth 100000 in
/-- **C2, witness.**  The closing iteration at `c2State` emits a WAV
of 66 frames: 1980 ms with the default configuration. -/
theorem c2_utterance_duration_witness :
    ∃ n, defaultConfig.minSpeech ≤ n ∧ wavDurationMs c2Wav = some (30 * n) := by
  refine c2_utterance_duration defaultConfig c2State
    ⟨zeroFrame, .det false, .speech false⟩ c2Final
    [Event.utterance c2Wav] c2Wav ?_ rfl ?_ ?_ ?_
  · intro f hfv
    rw [(List.mem_replicate.mp hfv).2]
    rfl
  · show (List.replicate 65 zeroFrame).length < 4473923
    rw [List.length_replicate]
    omega
  · rfl
  · exact List.mem_singleton.mpr rfl

/-- The synthetic audio of spec scenario 2, trimmed to the boundary: a
wake frame, 25 speech frames, then 40 silence frames. -/
def c2Inputs : List LoopInput :=
  wakeInput :: (List.replicate 25 speechInput ++
    List.replicate 40 silenceInput)

/-- The state after that run: back to IDLE with 293 timeout frames
left over. -/
def c2Final2 : CaptureState := { initialState with timeoutLeft := 293 }

set_option maxRecDepth 100000 in
/-- **C2, counterexample.**  The claim says every emitted utterance
holds at least `VAD_MIN_SPEECH_MS = 2000` ms of audio.  Because
`min_speech = 2000 // 30 = 66` frames, this concrete run emits an
utterance whose WAV decodes to exactly 1980 ms < 2000 ms. -/
theorem c2_emitted_below_min_speech_ms :
    run defaultConfig initialState c2Inputs =
      .ok (c2Final2, [Event.wakeWord, Event.utterance c2Wav]) ∧
    wavDurationMs c2Wav = some 1980 ∧ 1980 < 2000 := by
  have hall : ∀ f ∈ List.replicate 66 zeroFrame, f.length = 960 := by
    intro f hf
    rw [(List.mem_replicate.mp hf).2]
    simp [zeroFrame]
  have hflat := flatten_length_const _ hall
  rw [List.length_replicate] at hflat
  refine ⟨rfl, ?_, by omega⟩
  have h1 : wavDurationMs c2Wav =
      some (pcmDurationMs (List.replicate 66 zeroFrame).flatten.length) := by
    unfold c2Wav wavDurationMs
    rw [c9_wav_roundtrip _ (by rw [hflat]; norm_num)]
    rfl
  have h2 : pcmDurationMs (List.replicate 66 zeroFrame).flatten.length =
      1980 := by
    rw [show (List.replicate 66 zeroFrame).flatten.length = 63360 from by
      rw [hflat]]
    rfl
  rw [h1, h2]

/-- **C1, counterexample.**  The claim says a failed chat turn leaves
the history unchanged (the just-appended user message popped).  In the
source both `except` branches of `LLMClient.chat` return `None`
without popping: starting from an empty history, a failed turn leaves
one entry, not zero. -/
theorem c1_failed_turn_keeps_user_msg :
    (chat [] "hi" ChatResp.httpError).2 ≠ [] ∧
    ((chat [] "hi" ChatResp.httpError).2).length = 1 := by
  constructor
  · simp [chat]
  · rfl

/-- **C1, amended.**  On success `LLMClient.chat` appends exactly two
entries, `{user, text}` then `{assistant, reply}`, and returns the
stripped reply; on any failure (HTTP error or malformed response) the
just-appended user message *remains*, so the history grows by exactly
one entry on a failed turn. -/
theorem c1_chat_history_growth (history : List Msg) (u c : String) :
    chat history u (ChatResp.ok c) =
      (some (pyStrip c), history ++ [⟨"user", u⟩, ⟨"assistant", pyStrip c⟩]) ∧
    chat history u ChatResp.httpError = (none, history ++ [⟨"user", u⟩]) ∧
    chat history u ChatResp.malformed = (none, history ++ [⟨"user", u⟩]) := by
  refine ⟨?_, rfl, rfl⟩
  simp [chat]

/-- **C10.**  `ASRClient.transcribe` returns `None` when the `"text"`
field is missing, empty, or whitespace-only, and never returns the
empty string, so `if not user_text` in `daemon._pipeline` sees one
`None` for transport failure, malformed response and empty
transcription alike. -/
theorem c10_transcribe_never_empty (tf : Option String) :
    transcribe (ASRResp.ok none) = none ∧
    transcribe (ASRResp.ok (some "")) = none ∧
    ((tf.getD "").data.all isPySpace = true →
      transcribe (ASRResp.ok tf) = none) ∧
    (∀ r : ASRResp, transcribe r ≠ some "") := by
  refine ⟨rfl, rfl, ?_, ?_⟩
  · intro h
    have hnil : (tf.getD "").data.dropWhile isPySpace = [] := by
      rw [List.dropWhile_eq_nil_iff]
      intro x hx
      exact List.all_eq_true.mp h x hx
    simp [transcribe, pyStrip, hnil]
  · intro r
    cases r with
    | requestError => simp [transcribe]
    | ok tf' =>
        simp only [transcribe]
        by_cases h : pyStrip (tf'.getD "") = ""
        · simp [h]
        · simp [h]

/-- **C10, witness.**  A whitespace-only transcription yields `None`. -/
theorem c10_transcribe_never_empty_witness :
    transcribe (ASRResp.ok (some "  ")) = none :=
  (c10_transcribe_never_empty (some "  ")).2.2.1 (by decide)

end VoiceAssistant
